import Mathlib

/-!
# Verification of the go-mod-upgrade version-diff pipeline

Shallow embedding of `main.go`: the version model, the diff classifier and
renderer (`formatName`, `formatFrom`, `formatTo`), the discovery parser
(`discover`), the width-aware option construction of `choose`, and the apply
driver (`update`).

Styled terminal strings are modelled as their text together with explicit
color information: `formatName`/`formatFrom` return the padded text plus the
single color applied to it, and `formatTo` returns the ordered list of
segments written to the buffer, each tagged with whether it was wrapped in
the green "changed" highlight.  The color constructors mirror the `fatih/color`
attributes used in the source: `FgWhite`, `FgYellow`, `FgGreen`, `FgRed`,
`FgBlue`.
-/

namespace GoModUpgrade

/-- The terminal colors used by `main.go` (`color.FgWhite` etc.).  In the name
classifier, yellow is the "minor" severity color, green the "patch" severity
color, and red the "prerelease" severity color; green is also the "changed"
highlight in `formatTo`, and blue the color of the from-column. -/
inductive Color where
  | white
  | yellow
  | green
  | red
  | blue
deriving DecidableEq

/-- A parsed semantic version, as the `Masterminds/semver` `Version` exposes it
to `main.go`: numeric major/minor/patch and the prerelease and build-metadata
accessed as strings (`Prerelease()`, `Metadata()`). -/
structure Version where
  major : Nat
  minor : Nat
  patch : Nat
  prerelease : String
  metadata : String
deriving DecidableEq

/-- The `Module` struct of `main.go`: a discovered update record.  The Go field
`from` is a Lean keyword, so it is named `fromV` here, and `to` likewise `toV`. -/
structure Module where
  name : String
  fromV : Version
  toV : Version
deriving DecidableEq

/-- `padRight` of `main.go`: right-pad with spaces up to `length`, never
truncating. -/
def padRight (str : String) (length : Nat) : String :=
  if length ≤ str.length then str
  else str ++ String.mk (List.replicate (length - str.length) ' ')

/-- `formatName` of `main.go`, split into text and color: the color starts
white, then the three difference checks run unconditionally in sequence
(minor → yellow, patch → green, prerelease → red), each overwriting the
previous color when its fields differ. -/
def formatName (module : Module) (length : Nat) : String × Color :=
  let c := Color.white
  let c := if module.fromV.minor ≠ module.toV.minor then Color.yellow else c
  let c := if module.fromV.patch ≠ module.toV.patch then Color.green else c
  let c := if module.fromV.prerelease ≠ module.toV.prerelease then Color.red else c
  (padRight module.name length, c)

/-- The color `formatName` styles the name with. -/
def nameColor (module : Module) : Color :=
  (formatName module 0).2

/-- Modelled from the spec: the string form of a version
(`MAJOR.MINOR.PATCH[-PRERELEASE][+BUILD]`), produced in the source by the
external `semver.Version.String()` of the Masterminds library. -/
def versionString (v : Version) : String :=
  toString v.major ++ "." ++ toString v.minor ++ "." ++ toString v.patch
    ++ (if v.prerelease ≠ "" then "-" ++ v.prerelease else "")
    ++ (if v.metadata ≠ "" then "+" ++ v.metadata else "")

/-- `formatFrom` of `main.go`: the from-version string padded to `length`,
styled blue. -/
def formatFrom (from_ : Version) (length : Nat) : String × Color :=
  (padRight (versionString from_) length, Color.blue)

/-- `formatTo` of `main.go` as the ordered list of buffer writes, each tagged
with whether it was wrapped in the green highlight.  The `same` flag goes
false at the first differing field and never resets; once it is false, later
fields are highlighted even when equal.  The major field is always written
plainly, and build metadata, when present, is always written highlighted. -/
def formatTo (module : Module) : List (String × Bool) :=
  let tov := module.toV
  let seg0 : List (String × Bool) := [(toString tov.major ++ ".", false)]
  let st1 : List (String × Bool) × Bool :=
    if module.fromV.minor = tov.minor then
      (seg0 ++ [(toString tov.minor ++ ".", false)], true)
    else
      (seg0 ++ [(toString tov.minor, true), (".", true)], false)
  let st2 : List (String × Bool) × Bool :=
    if module.fromV.patch = tov.patch ∧ st1.2 = true then
      (st1.1 ++ [(toString tov.patch, false)], st1.2)
    else
      (st1.1 ++ [(toString tov.patch, true)], false)
  let st3 : List (String × Bool) :=
    if tov.prerelease ≠ "" then
      if module.fromV.prerelease = tov.prerelease ∧ st2.2 = true then
        st2.1 ++ [("-" ++ tov.prerelease, false)]
      else
        st2.1 ++ [("-", false), (tov.prerelease, true)]
    else st2.1
  if tov.metadata ≠ "" then st3 ++ [("+", true), (tov.metadata, true)] else st3

/-- The plain text of the rendered to-version, colors forgotten. -/
def formatToText (module : Module) : String :=
  String.join ((formatTo module).map (fun s => s.1))

/-! ## Version parsing -/

/-- Decimal digit test, on code points so it stays a plain computation. -/
def isDigitChar (c : Char) : Bool :=
  decide (48 ≤ c.toNat) && decide (c.toNat ≤ 57)

/-- Value of a digit string. -/
def digitsToNat (s : List Char) : Nat :=
  s.foldl (fun acc c => 10 * acc + (c.toNat - 48)) 0

/-- A numeric version field: nonempty, all digits. -/
def parseNumField (s : List Char) : Option Nat :=
  if !s.isEmpty && s.all isDigitChar then some (digitsToNat s) else none

/-- Split at the first occurrence of `c`, or `none` when `c` is absent. -/
def breakAtFirst (c : Char) : List Char → Option (List Char × List Char)
  | [] => none
  | x :: xs =>
    if x = c then some ([], xs)
    else (breakAtFirst c xs).map (fun p => (x :: p.1, p.2))

/-- Split on every occurrence of `c` (like Go's `strings.Split`). -/
def splitOnChar (c : Char) : List Char → List (List Char)
  | [] => [[]]
  | x :: xs =>
    let r := splitOnChar c xs
    if x = c then [] :: r
    else
      match r with
      | [] => [[x]]
      | h :: t => (x :: h) :: t

/-- Characters allowed in prerelease / build-metadata identifiers. -/
def identOk (s : List Char) : Bool :=
  !s.isEmpty && s.all (fun c => c.isAlphanum || c = '-' || c = '.')

/-- Modelled from the spec: `parseVersion(text) -> Version | fails`
(Version Model, §4.1), implemented in the source by the external
`semver.NewVersion` of the Masterminds library.  Accepts standard
semantic-version syntax `MAJOR.MINOR.PATCH[-PRERELEASE][+BUILD]` and rejects
malformed input. -/
def parseVersion (s : String) : Option Version :=
  let cs := s.toList
  let beforeMeta := match breakAtFirst '+' cs with
    | some p => p.1
    | none => cs
  let metaPart : Option (List Char) := match breakAtFirst '+' cs with
    | some p => some p.2
    | none => none
  let corePart := match breakAtFirst '-' beforeMeta with
    | some p => p.1
    | none => beforeMeta
  let prePart : Option (List Char) := match breakAtFirst '-' beforeMeta with
    | some p => some p.2
    | none => none
  match splitOnChar '.' corePart with
  | [ma, mi, pa] =>
    match parseNumField ma, parseNumField mi, parseNumField pa with
    | some M, some m, some p =>
      let preOk := match prePart with
        | none => true
        | some l => identOk l
      let metaOk := match metaPart with
        | none => true
        | some l => identOk l
      if preOk && metaOk then
        some ⟨M, m, p, String.mk (prePart.getD []), String.mk (metaPart.getD [])⟩
      else none
    | _, _, _ => none
  | _ => none

/-! ## The discovery line pattern

`main.go` matches each listing line against the Go regular expression
`'(.+): (.+) -> (.+)'` with `FindStringSubmatch`: leftmost starting position,
greedy groups (each group takes the longest text compatible with the rest of
the pattern matching), `.` matching any character except newline. -/

def newlineCh : Char := Char.ofNat 10

def quoteCh : Char := Char.ofNat 39

/-- What `.` matches: any character but newline. -/
def dotAny (c : Char) : Bool := c != newlineCh

/-- All decompositions `s = before ++ delim ++ after`, shortest `before`
first. -/
def splitsAt (delim : List Char) (s : List Char) : List (List Char × List Char) :=
  (List.range (s.length + 1)).filterMap (fun i =>
    if delim.isPrefixOf (s.drop i) then some (s.take i, (s.drop i).drop delim.length)
    else none)

/-- The decompositions in greedy order: longest `before` first. -/
def greedySplits (delim : List Char) (s : List Char) : List (List Char × List Char) :=
  (splitsAt delim s).reverse

/-- A candidate group text: nonempty and matched by `.+`. -/
def groupOk (g : List Char) : Bool :=
  !g.isEmpty && g.all dotAny

/-- Greedy match of `(.+)'` : the longest valid third group followed by the
closing quote. -/
def matchTail3 (u : List Char) : Option (List Char) :=
  (greedySplits [quoteCh] u).findSome? (fun pr =>
    if groupOk pr.1 then some pr.1 else none)

/-- Greedy match of `(.+) -> (.+)'` : second and third groups. -/
def matchTail2 (t : List Char) : Option (List Char × List Char) :=
  (greedySplits [' ', '-', '>', ' '] t).findSome? (fun pr =>
    if groupOk pr.1 then (matchTail3 pr.2).map (fun r => (pr.1, r)) else none)

/-- Greedy match of `(.+): (.+) -> (.+)'` : all three groups. -/
def matchTail1 (s : List Char) : Option (List Char × List Char × List Char) :=
  (greedySplits [':', ' '] s).findSome? (fun pr =>
    if groupOk pr.1 then (matchTail2 pr.2).map (fun qr => (pr.1, qr)) else none)

/-- Leftmost match: scan for an opening quote whose tail matches the rest of
the pattern. -/
def findQuoted : List Char → Option (List Char × List Char × List Char)
  | [] => none
  | c :: rest =>
    if c = quoteCh then
      match matchTail1 rest with
      | some g => some g
      | none => findQuoted rest
    else findQuoted rest

/-- `re.FindStringSubmatch` of `main.go` for `'(.+): (.+) -> (.+)'`, reduced to
its three capture groups (`none` when the line has no match, the case
`len(matched) < 4` in the source). -/
def findMatch (line : String) : Option (String × String × String) :=
  (findQuoted line.toList).map (fun g => (String.mk g.1, String.mk g.2.1, String.mk g.2.2))

/-! ## Discovery -/

/-- The errors `discover` can return: the pattern-mismatch error
(`"Couldn't parse module %s"`, carrying the offending line) and a version
parse failure propagated from the version model, carrying the text that
failed to parse. -/
inductive DiscErr where
  | parseError (line : String)
  | versionError (text : String)
deriving DecidableEq

/-- The per-line body of `discover`'s loop: match the line against the
pattern, then parse both versions, building a `Module`. -/
def parseLine (x : String) : Except DiscErr Module :=
  match findMatch x with
  | none => .error (.parseError x)
  | some g =>
    match parseVersion g.2.1 with
    | none => .error (.versionError g.2.1)
    | some fromversion =>
      match parseVersion g.2.2 with
      | none => .error (.versionError g.2.2)
      | some toversion => .ok ⟨g.1, fromversion, toversion⟩

/-- Whether a line enters the loop body: `x != "''" && x != ""` in the
source. -/
def keepLine (x : String) : Bool :=
  x != String.mk [quoteCh, quoteCh] && x != ""

/-- True when `parseLine` succeeds on the line. -/
def parseLineOk (x : String) : Bool :=
  match parseLine x with
  | .ok _ => true
  | .error _ => false

/-- The loop of `discover` over the split lines: skipped lines contribute
nothing, the first failing kept line aborts with its error, and each
successfully parsed kept line appends one `Module`, in emission order. -/
def discoverLines : List String → Except DiscErr (List Module)
  | [] => .ok []
  | x :: rest =>
    if keepLine x then
      match parseLine x with
      | .error e => .error e
      | .ok m => (discoverLines rest).map (fun ms => m :: ms)
    else discoverLines rest

/-- `discover` of `main.go` on the captured listing output: split on newlines,
then run the loop. -/
def discover (output : String) : Except DiscErr (List Module) :=
  discoverLines ((splitOnChar newlineCh output.toList).map String.mk)

/-! ## Selection: the width-dependent option strings of `choose` -/

/-- `maxName` of `choose`: the longest module name. -/
def maxName (modules : List Module) : Nat :=
  modules.foldl (fun acc x => max acc x.name.length) 0

/-- `maxFrom` of `choose`: the longest from-version string. -/
def maxFrom (modules : List Module) : Nat :=
  modules.foldl (fun acc x => max acc (versionString x.fromV).length) 0

/-- `maxTo` of `choose`: the longest to-version string. -/
def maxTo (modules : List Module) : Nat :=
  modules.foldl (fun acc x => max acc (versionString x.toV).length) 0

/-- Modelled from the spec: the terminal width actually used after the query.
`terminal.GetSize` returns width `0` together with the error on failure, and
`choose` only prints the error and continues with that value (the fail-soft
degraded mode of §4.4). -/
def widthOrDefault : Option Int → Int
  | none => 0
  | some w => w

/-- The column decision of `choose`: show the from-column only when
`termWidth > maxName+maxFrom+maxTo+11`. -/
def showFrom (modules : List Module) (termWidth : Int) : Bool :=
  (maxName modules : Int) + (maxFrom modules : Int) + (maxTo modules : Int) + 11 < termWidth

/-- The option strings `choose` passes to the selection widget (their plain
text; styling is carried by `formatName`/`formatFrom`/`formatTo` above).
`widthResult` is the outcome of the terminal-width query, `none` on failure. -/
def chooseOptions (modules : List Module) (widthResult : Option Int) : List String :=
  let termWidth := widthOrDefault widthResult
  modules.map (fun x =>
    let fromStr :=
      if showFrom modules termWidth then (formatFrom x.fromV (maxFrom modules)).1
      else ""
    (formatName x (maxName modules)).1 ++ " " ++ fromStr ++ " -> " ++ formatToText x)

/-! ## The apply driver -/

/-- The observable effects of `update`: one upgrade-command invocation per
record, and an error report when the command fails. -/
inductive Event where
  | attempt (name : String)
  | reportError (name : String) (out : String)
deriving DecidableEq

/-- `update` of `main.go`, with the external `go get` collaborator abstracted
as `upgrade : name ↦ (combined output, failed?)`: every record is attempted
in order, and a failure is reported and the loop continues. -/
def update (upgrade : String → String × Bool) : List Module → List Event
  | [] => []
  | x :: rest =>
    let r := upgrade x.name
    (Event.attempt x.name ::
      (if r.2 then [Event.reportError x.name r.1] else [])) ++ update upgrade rest

/-- The names `update` actually invoked the upgrade collaborator on, in
order. -/
def attemptedNames (evs : List Event) : List String :=
  evs.filterMap (fun e =>
    match e with
    | .attempt n => some n
    | .reportError _ _ => none)

end GoModUpgrade

namespace GoModUpgrade

/-! ## Claim theorems -/

/-- Helper: `formatTo` always begins with the plainly written major segment. -/
theorem formatTo_head (m : Module) :
    ∃ t, formatTo m = (toString m.toV.major ++ ".", false) :: t := by
  unfold formatTo
  dsimp only
  repeat' split
  all_goals simp [List.cons_append]

/-- C1 (counterexample): for the record with `from = 1.2.3-alpha`,
`to = 1.3.3-beta`, both the minor and the prerelease fields differ, yet
`formatName` styles the name red — the "prerelease" severity color — and not
yellow, the "minor" severity color the claim asserts: the last matching check
(prerelease) wins. -/
theorem c1_counterexample :
    (Version.mk 1 2 3 "alpha" "").minor ≠ (Version.mk 1 3 3 "beta" "").minor
    ∧ (Version.mk 1 2 3 "alpha" "").prerelease ≠ (Version.mk 1 3 3 "beta" "").prerelease
    ∧ nameColor ⟨"m", ⟨1, 2, 3, "alpha", ""⟩, ⟨1, 3, 3, "beta", ""⟩⟩ ≠ Color.yellow
    ∧ nameColor ⟨"m", ⟨1, 2, 3, "alpha", ""⟩, ⟨1, 3, 3, "beta", ""⟩⟩ = Color.red := by
  refine ⟨by decide, by decide, by decide, by decide⟩

/-- C1 (amended): for every record in which both the minor field and the
prerelease field differ between `from` and `to`, `formatName` styles the name
with the "prerelease" severity color (red): the three difference checks are
evaluated unconditionally in sequence and the prerelease check, being last,
overwrites the earlier minor styling. -/
theorem c1_amended (m : Module)
    (_hm : m.fromV.minor ≠ m.toV.minor)
    (hp : m.fromV.prerelease ≠ m.toV.prerelease) :
    nameColor m = Color.red := by
  simp [nameColor, formatName, hp]

/-- C1 witness: the amended theorem at the record `1.2.3-alpha → 2.4.3-beta`. -/
theorem c1_witness :
    nameColor ⟨"w", ⟨1, 2, 3, "alpha", ""⟩, ⟨2, 4, 3, "beta", ""⟩⟩ = Color.red :=
  c1_amended ⟨"w", ⟨1, 2, 3, "alpha", ""⟩, ⟨2, 4, 3, "beta", ""⟩⟩ (by decide) (by decide)

/-- C2 (counterexample): for `from = 1.2.3-beta`, `to = 1.3.0-beta` the patch
field also differs (3 versus 0), so the patch check, which runs after the
minor check, overwrites the yellow styling: `formatName` styles the name
green — the "patch" severity color — and not yellow, the "minor" severity
color the claim asserts. -/
theorem c2_counterexample :
    nameColor ⟨"m", ⟨1, 2, 3, "beta", ""⟩, ⟨1, 3, 0, "beta", ""⟩⟩ ≠ Color.yellow
    ∧ nameColor ⟨"m", ⟨1, 2, 3, "beta", ""⟩, ⟨1, 3, 0, "beta", ""⟩⟩ = Color.green := by
  refine ⟨by decide, by decide⟩

/-- C2 (amended): `1.2.3-beta → 1.3.0-beta` (minor and patch differ,
prerelease equal) renders the name with the "patch" severity color (green),
since the patch check runs after the minor check; and `1.2.3 → 1.2.3-rc`
(only prerelease differs) renders the name with the "prerelease" severity
color (red). -/
theorem c2_amended :
    nameColor ⟨"m", ⟨1, 2, 3, "beta", ""⟩, ⟨1, 3, 0, "beta", ""⟩⟩ = Color.green
    ∧ nameColor ⟨"n", ⟨1, 2, 3, "", ""⟩, ⟨1, 2, 3, "rc", ""⟩⟩ = Color.red := by
  refine ⟨by decide, by decide⟩

/-- C3 (counterexample): for the record `1.0.0 → 2.0.0` the major field
differs, yet `formatTo` renders every segment unhighlighted — in particular
the major component `"2."` is written plainly, not in the "changed" highlight
color the claim asserts. -/
theorem c3_counterexample :
    (Version.mk 1 0 0 "" "").major ≠ (Version.mk 2 0 0 "" "").major
    ∧ formatTo ⟨"m", ⟨1, 0, 0, "", ""⟩, ⟨2, 0, 0, "", ""⟩⟩
        = [("2.", false), ("0.", false), ("0", false)] := by
  refine ⟨by decide, by decide⟩

/-- C3 (amended): `formatTo` renders the minor, patch, prerelease and
build-metadata segments with per-field highlighting, but the major component
is always written in the neutral color, even for records whose major field
differs: the rendered list always begins with the plain segment
`"MAJOR."`. -/
theorem c3_amended (m : Module) :
    (formatTo m).head? = some (toString m.toV.major ++ ".", false) := by
  obtain ⟨t, ht⟩ := formatTo_head m
  rw [ht]
  rfl

/-- C3 witness: the amended theorem is hypothesis-free; still, it evaluates
at the record `1.0.0 → 2.1.1`, whose rendering starts with the plain major
segment. -/
theorem c3_witness :
    (formatTo ⟨"w", ⟨1, 0, 0, "", ""⟩, ⟨2, 1, 1, "", ""⟩⟩).head?
      = some (toString (2 : Nat) ++ ".", false) :=
  c3_amended ⟨"w", ⟨1, 0, 0, "", ""⟩, ⟨2, 1, 1, "", ""⟩⟩

/-- C4 (counterexample): for the record `1.2.3 → 1.3.3` the minor field
differs and the patch field is equal, yet `formatTo` writes the patch
component `"3"` highlighted, not in the neutral color the claim asserts:
the `same` flag is already false, so the equal trailing field is
highlighted. -/
theorem c4_counterexample :
    (Version.mk 1 2 3 "" "").minor ≠ (Version.mk 1 3 3 "" "").minor
    ∧ (Version.mk 1 2 3 "" "").patch = (Version.mk 1 3 3 "" "").patch
    ∧ formatTo ⟨"m", ⟨1, 2, 3, "", ""⟩, ⟨1, 3, 3, "", ""⟩⟩
        = [("1.", false), ("3", true), (".", true), ("3", true)] := by
  refine ⟨by decide, by decide, by decide⟩

/-- C4 (amended): once some field has been marked changed, equal trailing
fields are still written in the "changed" highlight color, not plainly: for
every record whose minor field differs, the patch component of the rendered
"to" string (the fourth segment) is highlighted, whether or not the patch
fields are equal. -/
theorem c4_amended (m : Module) (hm : m.fromV.minor ≠ m.toV.minor) :
    (formatTo m)[3]? = some (toString m.toV.patch, true) := by
  unfold formatTo
  dsimp only
  rw [if_neg hm]
  repeat' split
  all_goals simp_all [List.cons_append]

/-- C4 witness: the amended theorem at the record `1.2.3 → 1.3.3` (minor
differs, patch equal). -/
theorem c4_witness :
    (formatTo ⟨"w", ⟨1, 2, 3, "", ""⟩, ⟨1, 3, 3, "", ""⟩⟩)[3]?
      = some (toString (3 : Nat), true) :=
  c4_amended ⟨"w", ⟨1, 2, 3, "", ""⟩, ⟨1, 3, 3, "", ""⟩⟩ (by decide)

/-- C5 (counterexample): for the record whose `from` and `to` are the
identical version `1.0.0+build`, `formatTo` still writes highlighted
segments: build metadata, when present, is always highlighted, even when
nothing changed. -/
theorem c5_counterexample :
    (Module.mk "m" ⟨1, 0, 0, "", "build"⟩ ⟨1, 0, 0, "", "build"⟩).fromV
      = (Module.mk "m" ⟨1, 0, 0, "", "build"⟩ ⟨1, 0, 0, "", "build"⟩).toV
    ∧ formatTo ⟨"m", ⟨1, 0, 0, "", "build"⟩, ⟨1, 0, 0, "", "build"⟩⟩
        = [("1.", false), ("0.", false), ("0", false), ("+", true), ("build", true)]
    ∧ ((formatTo ⟨"m", ⟨1, 0, 0, "", "build"⟩, ⟨1, 0, 0, "", "build"⟩⟩).any
        (fun s => s.2)) = true := by
  refine ⟨by decide, by decide, by decide⟩

/-- C5 (amended): for every record whose `from` and `to` versions are equal
and whose `to` version carries no build metadata, `formatTo` renders no
highlighted field; when build metadata is present it is always rendered
highlighted, so the round-trip property holds exactly for metadata-free
versions. -/
theorem c5_amended (m : Module) (h : m.fromV = m.toV) (hm : m.toV.metadata = "") :
    ((formatTo m).all (fun s => !s.2)) = true := by
  unfold formatTo
  dsimp only
  rw [h, hm]
  simp only [if_pos rfl]
  repeat' split
  all_goals simp_all

/-- C5 witness: the amended theorem at the record with
`from = to = 1.0.0-rc` (no build metadata). -/
theorem c5_witness :
    ((formatTo ⟨"w", ⟨1, 0, 0, "rc", ""⟩, ⟨1, 0, 0, "rc", ""⟩⟩).all
      (fun s => !s.2)) = true :=
  c5_amended ⟨"w", ⟨1, 0, 0, "rc", ""⟩, ⟨1, 0, 0, "rc", ""⟩⟩ rfl rfl

/-- C10: for every record whose minor, patch and prerelease fields are all
equal between `from` and `to`, `formatName` leaves the name in the default
white color: the classifier never inspects the major field, so a major-only
upgrade carries no severity styling. -/
theorem c10_major_only_unstyled (m : Module)
    (h1 : m.fromV.minor = m.toV.minor) (h2 : m.fromV.patch = m.toV.patch)
    (h3 : m.fromV.prerelease = m.toV.prerelease) :
    nameColor m = Color.white := by
  simp [nameColor, formatName, h1, h2, h3]

/-- C10 witness: the record `1.0.0 → 2.0.0` differs only in major and its
name is rendered white (unstyled). -/
theorem c10_witness :
    nameColor ⟨"w", ⟨1, 0, 0, "", ""⟩, ⟨2, 0, 0, "", ""⟩⟩ = Color.white :=
  c10_major_only_unstyled ⟨"w", ⟨1, 0, 0, "", ""⟩, ⟨2, 0, 0, "", ""⟩⟩ rfl rfl rfl

/-- A one-record collection realizing `maxName = 10`, `maxFrom = 8`,
`maxTo = 8`: name `abcdefghij`, from `1.0.0-ab`, to `2.0.0-cd`. -/
def demoModules : List Module :=
  [⟨"abcdefghij", ⟨1, 0, 0, "ab", ""⟩, ⟨2, 0, 0, "cd", ""⟩⟩]

/-- C6: `choose` shows the from-version column exactly when the terminal
width exceeds `maxName + maxFrom + maxTo + 11`; with `maxName = 10`,
`maxFrom = 8`, `maxTo = 8` the column is hidden at width 26 and shown at
width 40; and when the width query fails the options are still built
(fail-soft), with the column hidden. -/
theorem c6_from_column :
    (∀ (modules : List Module) (w : Int),
        showFrom modules w = true ↔
          (maxName modules : Int) + (maxFrom modules : Int) + (maxTo modules : Int) + 11 < w)
    ∧ (∀ (modules : List Module) (wr : Option Int),
        chooseOptions modules wr = modules.map (fun x =>
          (formatName x (maxName modules)).1 ++ " "
            ++ (if showFrom modules (widthOrDefault wr) then
                  (formatFrom x.fromV (maxFrom modules)).1
                else "")
            ++ " -> " ++ formatToText x))
    ∧ maxName demoModules = 10 ∧ maxFrom demoModules = 8 ∧ maxTo demoModules = 8
    ∧ showFrom demoModules 26 = false
    ∧ showFrom demoModules 40 = true
    ∧ chooseOptions demoModules (some 26) = ["abcdefghij  -> 2.0.0-cd"]
    ∧ chooseOptions demoModules (some 40) = ["abcdefghij 1.0.0-ab -> 2.0.0-cd"]
    ∧ chooseOptions demoModules none = ["abcdefghij  -> 2.0.0-cd"]
    ∧ showFrom demoModules (widthOrDefault none) = false := by
  refine ⟨?u, ?v, by decide, by decide, by decide, by decide, by decide,
    by rfl, by rfl, by rfl, by decide⟩
  case u =>
    intro modules w
    simp [showFrom]
  case v =>
    intro modules wr
    rfl

/-- C7 (counterexample): in the listing output whose first line is
`'a: x -> 1.0.0'` and whose second line is `###`, the second line is kept
(neither empty nor the sentinel) and matches no pattern, yet `discover` fails
with the version-parse error for `x` — not with a `ParseError` naming `###`
— because the version failure on the earlier line aborts the pass first.
Zero records are still returned. -/
theorem c7_counterexample :
    keepLine "###" = true
    ∧ findMatch "###" = none
    ∧ discoverLines [quoteCh.toString ++ "a: x -> 1.0.0" ++ quoteCh.toString, "###"]
        = .error (.versionError "x")
    ∧ DiscErr.versionError "x" ≠ DiscErr.parseError "###" := by
  refine ⟨by rfl, by rfl, by rfl, by decide⟩

/-- C7 (amended): discovery is all-or-nothing: whenever the listing lines
consist of skippable or successfully parsed lines followed by a kept line
that matches no pattern, `discover` fails with the `ParseError` naming that
line (`"Couldn't parse module %s"`), and no records are returned.  (When an
earlier kept line already fails — for example on an invalid version — the
pass aborts with that earlier error instead.) -/
theorem c7_amended (earlier : List String) (bad : String) (rest : List String)
    (hok : ∀ l ∈ earlier, keepLine l = false ∨ parseLineOk l = true)
    (hkeep : keepLine bad = true) (hmatch : findMatch bad = none) :
    discoverLines (earlier ++ bad :: rest) = .error (.parseError bad) := by
  induction earlier with
  | nil =>
    simp only [List.nil_append, discoverLines, hkeep, if_pos]
    unfold parseLine
    rw [hmatch]
  | cons l tl ih =>
    have htl : ∀ x ∈ tl, keepLine x = false ∨ parseLineOk x = true :=
      fun x hx => hok x (List.mem_cons_of_mem l hx)
    have hl := hok l (List.mem_cons_self l tl)
    cases hkl : keepLine l with
    | false =>
      simp only [List.cons_append, discoverLines, hkl, if_neg, Bool.false_eq_true,
        ite_false]
      exact ih htl
    | true =>
      rcases hl with hl | hl
      · rw [hkl] at hl; exact absurd hl (by simp)
      · unfold parseLineOk at hl
        cases hpl : parseLine l with
        | error e => rw [hpl] at hl; simp at hl
        | ok m =>
          show discoverLines (l :: (tl ++ bad :: rest)) = _
          rw [discoverLines, if_pos hkl, hpl, ih htl]
          rfl

/-- C7 witness: the amended theorem on the listing whose first line parses
(`'a: 1.0.0 -> 1.0.1'`) and whose second line is the malformed
`bogus line`. -/
theorem c7_witness :
    discoverLines [quoteCh.toString ++ "a: 1.0.0 -> 1.0.1" ++ quoteCh.toString,
        "bogus line"]
      = .error (.parseError "bogus line") :=
  c7_amended [quoteCh.toString ++ "a: 1.0.0 -> 1.0.1" ++ quoteCh.toString]
    "bogus line" []
    (fun l hl => by
      rw [List.mem_singleton] at hl
      subst hl
      exact Or.inr rfl)
    rfl rfl

/-- C8: `discover` skips empty lines and the sentinel `''` and otherwise
produces exactly one record per kept line, in emission order: the loop equals
filtering the kept lines and parsing each in order; and the single listing
line `'foo: 1.2.3 -> 1.3.0'` yields exactly the record
`{name := foo, from := 1.2.3, to := 1.3.0}`, while a sentinel line and an
empty line yield no records and no error. -/
theorem c8_per_line :
    (∀ lines : List String,
        discoverLines lines = (lines.filter keepLine).mapM parseLine)
    ∧ discover (quoteCh.toString ++ "foo: 1.2.3 -> 1.3.0" ++ quoteCh.toString)
        = .ok [⟨"foo", ⟨1, 2, 3, "", ""⟩, ⟨1, 3, 0, "", ""⟩⟩]
    ∧ discoverLines [quoteCh.toString ++ quoteCh.toString, ""] = .ok [] := by
  refine ⟨?u, by rfl, by rfl⟩
  intro lines
  induction lines with
  | nil => rfl
  | cons x xs ih =>
    cases hk : keepLine x with
    | false =>
      rw [discoverLines, if_neg (by simp [hk]), List.filter_cons, if_neg (by simp [hk])]
      exact ih
    | true =>
      rw [discoverLines, if_pos hk, List.filter_cons, if_pos hk]
      cases hp : parseLine x with
      | error e => rw [List.mapM_cons, hp]; rfl
      | ok m =>
        rw [List.mapM_cons, hp, ih]
        cases he : (xs.filter keepLine).mapM parseLine with
        | error e => rfl
        | ok ms => rfl

/-- C9: the apply driver invokes the upgrade collaborator once per selected
record, in order, regardless of failures: the attempted names always equal
the record names; and in the three-record scenario where the second upgrade
fails, all three are attempted, the failure of `b` is reported in between,
and `update` completes normally. -/
theorem c9_failure_tolerant :
    (∀ (upgrade : String → String × Bool) (modules : List Module),
        attemptedNames (update upgrade modules) = modules.map (fun x => x.name))
    ∧ update (fun n => if n = "b" then ("boom", true) else ("", false))
        [⟨"a", ⟨1, 0, 0, "", ""⟩, ⟨1, 0, 1, "", ""⟩⟩,
         ⟨"b", ⟨1, 0, 0, "", ""⟩, ⟨1, 0, 1, "", ""⟩⟩,
         ⟨"c", ⟨1, 0, 0, "", ""⟩, ⟨1, 0, 1, "", ""⟩⟩]
      = [.attempt "a", .attempt "b", .reportError "b" "boom", .attempt "c"] := by
  refine ⟨?u, by decide⟩
  intro upgrade modules
  induction modules with
  | nil => rfl
  | cons x xs ih =>
    cases hf : (upgrade x.name).2 with
    | false => simp [update, hf, attemptedNames, List.filterMap_append] at ih ⊢; exact ih
    | true => simp [update, hf, attemptedNames, List.filterMap_append] at ih ⊢; exact ih

end GoModUpgrade
